import Mathlib

/-!
Shallow embedding of the social-networking client's core logic
(`src/services/firebaseService.ts` and the divergent revision in
`src/unnamed/part_000`): the ad-targeting matcher, reaction toggles for
posts/comments, message reactions, comment creation and soft-deletion,
the friend-request handshake (send / accept / reconcile), and the
fan-out friend subscription composer.  Firestore documents are modelled
as Lean structures; collections keyed by document id become functions
`String → Option Doc` or lists of records; `arrayUnion` / `arrayRemove`
/ field updates are modelled explicitly.  JavaScript truthiness of the
optional fields the code guards on is modelled by `truthyStr` /
`truthyNat`.
-/

set_option maxHeartbeats 1600000

namespace SocialApp

/-- JS truthiness of an optional string field (`undefined`, `null` and
`""` are falsy). -/
def truthyStr : Option String → Bool
  | none => false
  | some s => !(s == "")

/-- JS truthiness of an optional numeric field (`undefined` and `0` are
falsy). -/
def truthyNat : Option Nat → Bool
  | none => false
  | some n => !(n == 0)

/-- JS `String.prototype.includes`: substring containment. -/
def strIncludes (s t : String) : Bool :=
  (s.toList.tails).any (fun suf => t.toList.isPrefixOf suf)

/-- JS object property assignment `obj[k] = v` on an insertion-ordered
keyed map (keys are unique in a JS object): replace the entry in place,
or append a new entry at the end. -/
def setEntry {α : Type} : List (String × α) → String → α → List (String × α)
  | [], k, v => [(k, v)]
  | p :: t, k, v => if p.1 == k then (k, v) :: t else p :: setEntry t k v

/-- JS `delete obj[k]` on a keyed map. -/
def delEntry {α : Type} (l : List (String × α)) (k : String) : List (String × α) :=
  l.filter (fun p => !(p.1 == k))

/-- Firestore `arrayUnion` with a single element: append unless already
present. -/
def arrayUnionOne (l : List String) (u : String) : List String :=
  if l.contains u then l else l ++ [u]

/-- Firestore `arrayUnion(...adds)` over a list of elements. -/
def arrayUnionList (l adds : List String) : List String :=
  adds.foldl arrayUnionOne l

/-- Firestore `arrayRemove(...rems)`. -/
def arrayRemoveList (l rems : List String) : List String :=
  l.filter (fun x => !(rems.contains x))

/-- The user profile document (`users` collection), restricted to the
fields the verified operations read or write.  `friendRequestPrivacy`
is `privacySettings.friendRequestPrivacy` from the source. -/
structure UserDoc where
  id : String
  name : String := ""
  username : String := ""
  avatarUrl : String := ""
  friendIds : List String := []
  sentFriendRequests : List String := []
  friendRequestPrivacy : String := "public"
  currentCity : Option String := none
  gender : Option String := none
  age : Option Nat := none
  bio : Option String := none
  commentingSuspendedUntil : Option Nat := none
deriving DecidableEq

/-- A campaign's optional targeting rule (`campaign.targeting`). -/
structure Targeting where
  location : Option String := none
  gender : Option String := none
  ageRange : Option String := none
  interests : Option (List String) := none
deriving DecidableEq

/-- Sponsor campaign, restricted to the targeting rule. -/
structure Campaign where
  targeting : Option Targeting := none
deriving DecidableEq

/-- Location check of `matchesTargeting`: fails only when both the
constraint and the viewer's city are (truthily) present and the
lowercased, trimmed strings differ. -/
def locationOk (t : Targeting) (user : UserDoc) : Bool :=
  !(truthyStr t.location && truthyStr user.currentCity &&
    ((t.location.getD "").toLower.trim != (user.currentCity.getD "").toLower.trim))

/-- Gender check of `matchesTargeting`: `'All'` is a wildcard; absent
viewer gender passes. -/
def genderOk (t : Targeting) (user : UserDoc) : Bool :=
  !(truthyStr t.gender && ((t.gender.getD "") != "All") && truthyStr user.gender &&
    (t.gender != user.gender))

/-- Age-range check of `matchesTargeting`: the rule string is split on
`"-"` and both halves parsed (`parseInt`; a failed parse yields NaN,
whose comparisons are false, modelled by `String.toNat?` returning
`none`).  An absent (or `0`, falsy) viewer age passes. -/
def ageOk (t : Targeting) (user : UserDoc) : Bool :=
  if truthyStr t.ageRange && truthyNat user.age then
    let parts := (t.ageRange.getD "").splitOn "-"
    let minN := parts[0]?.bind String.toNat?
    let maxN := parts[1]?.bind String.toNat?
    let a := user.age.getD 0
    !((match minN with | some m => decide (a < m) | none => false) ||
      (match maxN with | some m => decide (m < a) | none => false))
  else true

/-- Interests check of `matchesTargeting`: with a nonempty interest list
and a (truthily) present bio, some interest must occur case-insensitively
in the bio; otherwise the check passes. -/
def interestsOk (t : Targeting) (user : UserDoc) : Bool :=
  if (match t.interests with | some l => decide (0 < l.length) | none => false) &&
      truthyStr user.bio then
    (t.interests.getD []).any (fun i => strIncludes ((user.bio.getD "").toLower) i.toLower)
  else true

/-- `matchesTargeting(campaign, user)` from `src/services/firebaseService.ts`:
no targeting rule matches everyone; otherwise all four present
constraints must pass (the source returns `false` at the first failing
check, equivalent to this conjunction). -/
def matchesTargeting (campaign : Campaign) (user : UserDoc) : Bool :=
  match campaign.targeting with
  | none => true
  | some t => locationOk t user && genderOk t user && ageOk t user && interestsOk t user

/-- A per-user reaction map `{ [userId]: emoji }` of a post or comment. -/
abbrev ReactionMap := List (String × String)

/-- The toggle shared by `reactToPost` and `reactToComment`: if the
user's previous reaction equals the new one, delete the entry; otherwise
set/overwrite it. -/
def toggleReaction (rs : ReactionMap) (userId newReaction : String) : ReactionMap :=
  match List.lookup userId rs with
  | some prev => if prev == newReaction then delEntry rs userId else setEntry rs userId newReaction
  | none => setEntry rs userId newReaction

/-- Content type tag of a comment. -/
inductive CommentType
  | text
  | image
  | audio
deriving DecidableEq

/-- Author snapshot denormalized into comments and requests. -/
structure Author where
  id : String
  name : String := ""
  username : String := ""
  avatarUrl : String := ""
deriving DecidableEq

/-- An embedded comment element of a post's `comments` sequence. -/
structure Comment where
  id : String
  author : Author
  type : CommentType := CommentType.text
  text : Option String := none
  imageUrl : Option String := none
  audioUrl : Option String := none
  duration : Option Nat := none
  reactions : ReactionMap := []
  parentId : Option String := none
  isDeleted : Bool := false
deriving DecidableEq

/-- A post document, restricted to the fields the verified operations
touch: the embedded comment sequence, the post-level reaction map and
the separately maintained `commentCount` counter. -/
structure Post where
  comments : List Comment := []
  reactions : ReactionMap := []
  commentCount : Nat := 0
deriving DecidableEq

/-- `reactToPost` transaction body (the post exists): toggle the acting
user's entry in the post-level reaction map. -/
def reactToPost (p : Post) (userId newReaction : String) : Post :=
  { p with reactions := toggleReaction p.reactions userId newReaction }

/-- Mutate the first comment whose `id` matches, as the source's
`findIndex` + in-place assignment does. -/
def modifyFirst (l : List Comment) (commentId : String) (f : Comment → Comment) : List Comment :=
  match l with
  | [] => []
  | c :: cs => if c.id == commentId then f c :: cs else c :: modifyFirst cs commentId f

/-- The per-comment mutation of `reactToComment`: toggle the user's
entry in the comment's own reaction map. -/
def toggleCommentReactions (userId newReaction : String) (c : Comment) : Comment :=
  { c with reactions := toggleReaction c.reactions userId newReaction }

/-- `reactToComment` transaction body: locate the comment by id
(`findIndex`; throws "Comment not found!" when absent, modelled as
`none`), toggle the user's entry in that comment's reaction map, and
write the sequence back. -/
def reactToComment (p : Post) (commentId userId newReaction : String) : Option Post :=
  if (p.comments.find? (fun c => c.id == commentId)).isSome then
    some { p with comments := modifyFirst p.comments commentId (toggleCommentReactions userId newReaction) }
  else none

/-- A message's reaction structure `reactions : map<emoji, set<userId>>`. -/
abbrev MsgReactions := List (String × List String)

/-- `reactToMessage` from `src/unnamed/part_000`: a field-path update
`reactions.${emoji} := arrayUnion(userId)` — the user id is added to
that emoji's id set (creating it when absent); nothing is ever
removed. -/
def reactToMessage (reactions : MsgReactions) (userId emoji : String) : MsgReactions :=
  setEntry reactions emoji (arrayUnionOne ((List.lookup emoji reactions).getD []) userId)

/-- The caller-supplied `data` argument of `createComment`.  The binary
media payloads are modelled by their presence (`imageFile`, `audioBlob`);
the external upload returns a URL derived from the pre-generated comment
id, as the source's Cloudinary file naming does. -/
structure CommentInput where
  text : Option String := none
  imageFile : Bool := false
  audioBlob : Bool := false
  duration : Option Nat := none
  parentId : Option String := none
deriving DecidableEq

/-- Outcome of `createComment`: `suspended` is the early `null` return
for a commenting-suspended user; `validationError` is the thrown
"Comment must have content."; `ok` carries the updated post and the
comment that was appended. -/
inductive CreateCommentResult
  | suspended
  | validationError
  | ok (p : Post) (c : Comment)
deriving DecidableEq

/-- `createComment(user, postId, data)`: refuse when the acting user's
`commentingSuspendedUntil` is strictly in the future; otherwise build
the comment by the source's priority chain — audio (blob plus truthy
duration), else image, else truthy text, else throw — and update the
post with `arrayUnion(newComment)` (an append, the comment is fresh)
and `commentCount: increment(1)`.  Timestamps are modelled as `Nat`. -/
def createComment (user : UserDoc) (now : Nat) (author : Author) (newId : String)
    (p : Post) (data : CommentInput) : CreateCommentResult :=
  if (match user.commentingSuspendedUntil with | some t => decide (now < t) | none => false) then
    CreateCommentResult.suspended
  else
    let base : Comment :=
      { id := newId, author := author, reactions := [], parentId := data.parentId }
    if data.audioBlob && truthyNat data.duration then
      let c := { base with type := CommentType.audio, duration := data.duration, audioUrl := some ("comment_audio_" ++ newId ++ ".webm") }
      CreateCommentResult.ok
        { p with comments := p.comments ++ [c], commentCount := p.commentCount + 1 } c
    else if data.imageFile then
      let c := { base with type := CommentType.image, imageUrl := some ("comment_image_" ++ newId ++ ".jpeg") }
      CreateCommentResult.ok
        { p with comments := p.comments ++ [c], commentCount := p.commentCount + 1 } c
    else if truthyStr data.text then
      let c := { base with type := CommentType.text, text := data.text }
      CreateCommentResult.ok
        { p with comments := p.comments ++ [c], commentCount := p.commentCount + 1 } c
    else
      CreateCommentResult.validationError

/-- The soft-delete applied to the located comment by `deleteComment`:
`isDeleted := true`, text and media URLs blanked, reactions cleared;
`id`, `author`, `type`, `parentId` are untouched. -/
def blankComment (c : Comment) : Comment :=
  { c with isDeleted := true, text := none, audioUrl := none, imageUrl := none, reactions := [] }

/-- `deleteComment` transaction body: locate the comment by id
(`findIndex`; already-deleted / absent ids return with no change),
soft-delete it in place and write the sequence back.  `commentCount`
is not touched. -/
def deleteComment (p : Post) (commentId : String) : Post :=
  if (p.comments.find? (fun c => c.id == commentId)).isSome then
    { p with comments := modifyFirst p.comments commentId blankComment }
  else p

/-- Number of non-deleted comments of a sequence. -/
def countNonDeleted (l : List Comment) : Nat :=
  (l.filter (fun c => !c.isDeleted)).length

/-- A `friendRequests` document.  Its id is `${from.id}_${to.id}`,
modelled by keying on the ordered pair; the denormalized `from` / `to`
author snapshots are reduced to the ids the verified operations read. -/
structure FriendRequestDoc where
  fromId : String
  toId : String
  status : String
deriving DecidableEq

/-- The store state the friend handshake touches: the `users` collection
(keyed by id) and the `friendRequests` collection. -/
structure FriendDB where
  users : String → Option UserDoc
  friendRequests : List FriendRequestDoc

/-- Point-read of the request document keyed `${fromId}_${toId}`. -/
def getRequest (db : FriendDB) (fromId toId : String) : Option FriendRequestDoc :=
  db.friendRequests.find? (fun r => r.fromId == fromId && r.toId == toId)

/-- `userRef.update(...)` on the document keyed `uid`: updating a
missing document throws (and the callers catch), so a missing document
is left missing. -/
def updateUser (db : FriendDB) (uid : String) (f : UserDoc → UserDoc) : FriendDB :=
  { db with users := fun x => if x == uid then (db.users x).map f else db.users x }

/-- Result of `addFriend`: `{ success: boolean; reason?: string }`. -/
inductive AddFriendResult
  | success
  | failure (reason : String)
deriving DecidableEq

/-- `addFriend(currentUserId, targetUserId)` (the request-document
revision in `src/services/firebaseService.ts`): fetch both profiles
(missing → `server_error`); return plain success if a request document
exists in either ordering; enforce the receiver's
`friends_of_friends` privacy rule via the friend-set intersection;
otherwise create a `pending` request document keyed
`${currentUserId}_${targetUserId}`. -/
def addFriend (db : FriendDB) (currentUserId targetUserId : String) :
    FriendDB × AddFriendResult :=
  match db.users currentUserId, db.users targetUserId with
  | some sender, some receiver =>
    if (getRequest db currentUserId targetUserId).isSome ||
        (getRequest db targetUserId currentUserId).isSome then
      (db, AddFriendResult.success)
    else if receiver.friendRequestPrivacy == "friends_of_friends" &&
        (sender.friendIds.filter (fun fid => receiver.friendIds.contains fid)).isEmpty &&
        (targetUserId != currentUserId) then
      (db, AddFriendResult.failure "friends_of_friends")
    else
      ({ db with friendRequests := db.friendRequests ++
          [{ fromId := currentUserId, toId := targetUserId, status := "pending" }] },
        AddFriendResult.success)
  | _, _ => (db, AddFriendResult.failure "server_error")

/-- `acceptFriendRequest(currentUserId, requestingUserId)`: update the
request keyed `${requestingUserId}_${currentUserId}` to `accepted`
(missing → the update throws and the catch leaves everything
unchanged), then `arrayUnion` the requester into the current user's
`friendIds`.  The notification deposited into the requester's inbox is
outside the verified footprint and elided. -/
def acceptFriendRequest (db : FriendDB) (currentUserId requestingUserId : String) : FriendDB :=
  if (getRequest db requestingUserId currentUserId).isSome then
    let db1 : FriendDB :=
      { db with friendRequests := db.friendRequests.map (fun r =>
          if r.fromId == requestingUserId && r.toId == currentUserId then
            { r with status := "accepted" }
          else r) }
    updateUser db1 currentUserId
      (fun u => { u with friendIds := arrayUnionOne u.friendIds requestingUserId })
  else db

/-- `syncAcceptedFriends(userId)` — the session-start reconcile step:
query requests with `from.id == userId` and `status == 'accepted'`;
if any, delete those documents and batch-update the user's own record
with `friendIds: arrayUnion(...friendsToAdd)` and
`sentFriendRequests: arrayRemove(...friendsToAdd)`.  The guard
`if (!userId) return` is the empty-string check. -/
def syncAcceptedFriends (db : FriendDB) (userId : String) : FriendDB :=
  if userId == "" then db
  else
    let accepted := db.friendRequests.filter
      (fun r => r.fromId == userId && r.status == "accepted")
    let friendsToAdd := accepted.map (fun r => r.toId)
    if friendsToAdd.isEmpty then db
    else
      let remaining := db.friendRequests.filter
        (fun r => !(r.fromId == userId && r.status == "accepted"))
      let db1 : FriendDB := { db with friendRequests := remaining }
      updateUser db1 userId (fun u =>
        { u with friendIds := arrayUnionList u.friendIds friendsToAdd, sentFriendRequests := arrayRemoveList u.sentFriendRequests friendsToAdd })

/-- State of the fan-out friend subscription of
`listenToFriends` (`src/unnamed/part_000`): the current parent-derived
id set and the insertion-ordered merged map `friendsData`. -/
structure ComposerState where
  currentIds : List String
  friendsData : List (String × UserDoc)
deriving DecidableEq

/-- Discrete events delivered to the composer: a parent (own-profile)
snapshot carrying the new `friendIds`, or a child (friend-document)
snapshot that exists (`childUpdate`) or does not (`childDelete`).  A
child event for an id outside `currentIds` cannot occur — its listener
was unsubscribed — so the step ignores it. -/
inductive ComposerEvent
  | parentUpdate (friendIds : List String)
  | childUpdate (friendId : String) (doc : UserDoc)
  | childDelete (friendId : String)

/-- One event step of `listenToFriends`: `setupListeners` unsubscribes
every old child listener, resets `friendsData = {}` and subscribes one
listener per current id; a live child update overwrites that id's
entry; a live child delete removes it.  After every step the callback
emits `Object.values(friendsData)`. -/
def listenToFriendsStep (st : ComposerState) (e : ComposerEvent) : ComposerState :=
  match e with
  | ComposerEvent.parentUpdate ids => { currentIds := ids, friendsData := [] }
  | ComposerEvent.childUpdate fid doc =>
    if st.currentIds.contains fid then
      { st with friendsData := setEntry st.friendsData fid doc }
    else st
  | ComposerEvent.childDelete fid =>
    if st.currentIds.contains fid then
      { st with friendsData := delEntry st.friendsData fid }
    else st

/-- The composer state after a sequence of events, from the initial
state (no ids, empty merge). -/
def listenToFriendsRun (events : List ComposerEvent) : ComposerState :=
  events.foldl listenToFriendsStep { currentIds := [], friendsData := [] }

/-- Teardown/setup side effects of one `setupListeners` call, in source
order: first every old child subscription is cancelled, then one child
subscription per new id is created. -/
inductive SubAction
  | cancel (id : String)
  | create (id : String)
deriving DecidableEq

/-- Whether an action is a cancellation. -/
def SubAction.isCancel : SubAction → Bool
  | SubAction.cancel _ => true
  | SubAction.create _ => false

/-- The action trace of `setupListeners(newIds)` given the previously
subscribed ids: `friendListeners.forEach(unsubscribe)` then one
`onSnapshot` per new id. -/
def setupListenersActions (oldIds newIds : List String) : List SubAction :=
  oldIds.map SubAction.cancel ++ newIds.map SubAction.create

/-- The full handshake run of the first testable property: send a
request, the receiver accepts, the sender reconciles on next session
start. -/
def handshake (db : FriendDB) (a b : String) : FriendDB :=
  syncAcceptedFriends (acceptFriendRequest (addFriend db a b).fst b a) a

/-!  ## Lemmas about the keyed-map and array-operator primitives  -/

theorem lookup_setEntry_self {α : Type} (l : List (String × α)) (k : String) (v : α) :
    List.lookup k (setEntry l k v) = some v := by
  induction l with
  | nil => simp [setEntry]
  | cons p t ih =>
    obtain ⟨k0, v0⟩ := p
    by_cases h : k0 = k
    · simp [setEntry, h]
    · have h1 : (k0 == k) = false := beq_false_of_ne h
      have h2 : (k == k0) = false := beq_false_of_ne (Ne.symm h)
      simp [setEntry, h1, List.lookup_cons, h2, ih]

theorem lookup_setEntry_ne {α : Type} (l : List (String × α)) (k k2 : String) (v : α)
    (h : k2 ≠ k) : List.lookup k2 (setEntry l k v) = List.lookup k2 l := by
  induction l with
  | nil => simp [setEntry, List.lookup_cons, beq_false_of_ne h]
  | cons p t ih =>
    obtain ⟨k0, v0⟩ := p
    by_cases hp : k0 = k
    · subst hp
      simp [setEntry, List.lookup_cons, beq_false_of_ne h]
    · have h1 : (k0 == k) = false := beq_false_of_ne hp
      simp [setEntry, h1, List.lookup_cons, ih]

theorem lookup_delEntry_self {α : Type} (l : List (String × α)) (k : String) :
    List.lookup k (delEntry l k) = none := by
  induction l with
  | nil => rfl
  | cons p t ih =>
    obtain ⟨k0, v0⟩ := p
    by_cases h : k0 = k
    · simpa [delEntry, List.filter, beq_false_of_ne, h] using ih
    · have h1 : (k0 == k) = false := beq_false_of_ne h
      have h2 : (k == k0) = false := beq_false_of_ne (Ne.symm h)
      simpa [delEntry, List.filter, h1, List.lookup_cons, h2] using ih

theorem not_mem_keys_delEntry {α : Type} (l : List (String × α)) (k : String) :
    k ∉ (delEntry l k).map Prod.fst := by
  intro hmem
  rcases List.mem_map.mp hmem with ⟨p, hp, hfst⟩
  rcases List.mem_filter.mp hp with ⟨_, hcond⟩
  simp [hfst] at hcond

/-- Entries of a keyed map that belong to key `k`. -/
def entriesFor {α : Type} (l : List (String × α)) (k : String) : List (String × α) :=
  l.filter (fun p => p.1 == k)

theorem entriesFor_eq_nil_of_lookup_none {α : Type} (l : List (String × α)) (k : String)
    (h : List.lookup k l = none) : entriesFor l k = [] := by
  induction l with
  | nil => rfl
  | cons p t ih =>
    obtain ⟨k0, v0⟩ := p
    by_cases hk : k0 = k
    · subst hk
      simp at h
    · have h1 : (k0 == k) = false := beq_false_of_ne hk
      have h2 : (k == k0) = false := beq_false_of_ne (Ne.symm hk)
      rw [List.lookup_cons] at h
      simp only [h2] at h
      simpa [entriesFor, List.filter, h1] using ih h

theorem entriesFor_delEntry_self {α : Type} (l : List (String × α)) (k : String) :
    entriesFor (delEntry l k) k = [] := by
  simp only [entriesFor, delEntry, List.filter_filter, List.filter_eq_nil_iff]
  intro p hp
  simp

theorem entriesFor_setEntry_of_nil {α : Type} (l : List (String × α)) (k : String) (v : α)
    (h : entriesFor l k = []) : entriesFor (setEntry l k v) k = [(k, v)] := by
  induction l with
  | nil => simp [setEntry, entriesFor, List.filter]
  | cons p t ih =>
    obtain ⟨k0, v0⟩ := p
    by_cases hp : k0 = k
    · subst hp
      simp [entriesFor, List.filter] at h
    · have h1 : (k0 == k) = false := beq_false_of_ne hp
      simp only [entriesFor, List.filter, h1] at h
      simp only [setEntry, h1, Bool.false_eq_true, if_false]
      simpa [entriesFor, List.filter, h1] using ih h

theorem entriesFor_setEntry_of_nodup {α : Type} (l : List (String × α)) (k : String) (v : α)
    (hnd : (l.map Prod.fst).Nodup) :
    entriesFor (setEntry l k v) k = [(k, v)] := by
  induction l with
  | nil => simp [setEntry, entriesFor, List.filter]
  | cons p t ih =>
    obtain ⟨k0, v0⟩ := p
    simp only [List.map_cons, List.nodup_cons] at hnd
    by_cases hp : k0 = k
    · subst hp
      have ht : List.filter (fun p => p.1 == k0) t = [] := by
        rw [List.filter_eq_nil_iff]
        intro q hq hqk
        exact hnd.1 (List.mem_map.mpr ⟨q, hq, by simpa using hqk⟩)
      simp only [setEntry, beq_self_eq_true, if_true, entriesFor, List.filter, ht]
    · have h1 : (k0 == k) = false := beq_false_of_ne hp
      simp only [setEntry, h1, Bool.false_eq_true, if_false]
      simpa [entriesFor, List.filter, h1] using ih hnd.2

theorem lookup_mem_keys {α : Type} (l : List (String × α)) (k : String) (v : α)
    (h : List.lookup k l = some v) : k ∈ l.map Prod.fst := by
  induction l with
  | nil => simp at h
  | cons p t ih =>
    obtain ⟨k0, v0⟩ := p
    by_cases hk : k = k0
    · simp [hk]
    · rw [List.lookup_cons] at h
      simp only [beq_false_of_ne hk] at h
      simp [ih h]

theorem mem_arrayUnionOne_self (l : List String) (u : String) : u ∈ arrayUnionOne l u := by
  unfold arrayUnionOne
  by_cases h : u ∈ l
  · simp [h]
  · simp [h]

theorem mem_arrayUnionOne_of_mem (l : List String) (u v : String) (h : v ∈ l) :
    v ∈ arrayUnionOne l u := by
  unfold arrayUnionOne
  by_cases hc : u ∈ l <;> simp [hc, h]

theorem mem_arrayUnionList_of_mem_left (l adds : List String) (v : String) (h : v ∈ l) :
    v ∈ arrayUnionList l adds := by
  induction adds generalizing l with
  | nil => simpa [arrayUnionList]
  | cons a t ih =>
    simpa [arrayUnionList] using ih (arrayUnionOne l a) (mem_arrayUnionOne_of_mem l a v h)

theorem mem_arrayUnionList_of_mem_adds (l adds : List String) (v : String) (h : v ∈ adds) :
    v ∈ arrayUnionList l adds := by
  induction adds generalizing l with
  | nil => simp at h
  | cons a t ih =>
    rcases List.mem_cons.mp h with h1 | h2
    · subst h1
      exact mem_arrayUnionList_of_mem_left (arrayUnionOne l v) t v (mem_arrayUnionOne_self l v)
    · simpa [arrayUnionList] using ih (arrayUnionOne l a) h2

theorem arrayUnionOne_eq_self (l : List String) (u : String) (h : u ∈ l) :
    arrayUnionOne l u = l := by
  simp [arrayUnionOne, h]

theorem mem_keys_setEntry {α : Type} (l : List (String × α)) (k x : String) (v : α)
    (h : x ∈ (setEntry l k v).map Prod.fst) : x = k ∨ x ∈ l.map Prod.fst := by
  induction l with
  | nil => simpa [setEntry] using h
  | cons p t ih =>
    obtain ⟨k0, v0⟩ := p
    by_cases hp : k0 = k
    · subst hp
      simp only [setEntry, beq_self_eq_true, if_true, List.map_cons, List.mem_cons] at h
      rcases h with h | h
      · exact Or.inl h
      · exact Or.inr (by simp [h])
    · have h1 : (k0 == k) = false := beq_false_of_ne hp
      simp only [setEntry, h1, Bool.false_eq_true, if_false, List.map_cons, List.mem_cons] at h
      rcases h with h | h
      · exact Or.inr (by simp [h])
      · rcases ih h with h2 | h2
        · exact Or.inl h2
        · exact Or.inr (by simp [h2])

theorem nodup_keys_setEntry {α : Type} (l : List (String × α)) (k : String) (v : α)
    (hnd : (l.map Prod.fst).Nodup) : ((setEntry l k v).map Prod.fst).Nodup := by
  induction l with
  | nil => simp [setEntry]
  | cons p t ih =>
    obtain ⟨k0, v0⟩ := p
    simp only [List.map_cons, List.nodup_cons] at hnd
    by_cases hp : k0 = k
    · subst hp
      simp only [setEntry, beq_self_eq_true, if_true, List.map_cons, List.nodup_cons]
      exact hnd
    · have h1 : (k0 == k) = false := beq_false_of_ne hp
      simp only [setEntry, h1, Bool.false_eq_true, if_false, List.map_cons, List.nodup_cons]
      refine ⟨fun hmem => ?_, ih hnd.2⟩
      rcases mem_keys_setEntry t k k0 v hmem with h2 | h2
      · exact hp h2
      · exact hnd.1 h2

theorem nodup_keys_delEntry {α : Type} (l : List (String × α)) (k : String)
    (hnd : (l.map Prod.fst).Nodup) : ((delEntry l k).map Prod.fst).Nodup :=
  ((List.filter_sublist l).map Prod.fst).nodup hnd

/-!  ## Lemmas about the reaction toggle  -/

theorem toggleReaction_off (rs : ReactionMap) (u X : String)
    (h : List.lookup u rs = some X) : toggleReaction rs u X = delEntry rs u := by
  simp [toggleReaction, h]

theorem entriesFor_toggleReaction_twice (rs : ReactionMap) (u X Y : String)
    (hnd : (rs.map Prod.fst).Nodup) (hXY : X ≠ Y) :
    entriesFor (toggleReaction (toggleReaction rs u X) u Y) u = [(u, Y)] := by
  have key : ∀ t1 : ReactionMap, (t1.map Prod.fst).Nodup →
      List.lookup u t1 ≠ some Y → entriesFor (toggleReaction t1 u Y) u = [(u, Y)] := by
    intro t1 hnd1 hne
    unfold toggleReaction
    cases hl : List.lookup u t1 with
    | none => exact entriesFor_setEntry_of_nodup t1 u Y hnd1
    | some prev =>
      have hpY : (prev == Y) = false := by
        refine beq_false_of_ne fun he => ?_
        exact hne (by rw [hl, he])
      simp only [hpY, Bool.false_eq_true, if_false]
      exact entriesFor_setEntry_of_nodup t1 u Y hnd1
  unfold toggleReaction
  cases hprev : List.lookup u rs with
  | none =>
    have h1 : List.lookup u (setEntry rs u X) = some X := lookup_setEntry_self rs u X
    have := key (setEntry rs u X) (nodup_keys_setEntry rs u X hnd)
      (by rw [h1]; exact fun he => hXY (by injection he))
    simpa [toggleReaction, h1] using this
  | some prev =>
    by_cases hpX : prev = X
    · simp only [beq_iff_eq, hpX, if_true]
      have h1 : List.lookup u (delEntry rs u) = none := lookup_delEntry_self rs u
      have := key (delEntry rs u) (nodup_keys_delEntry rs u hnd) (by rw [h1]; exact fun h => by injection h)
      simpa [toggleReaction, h1] using this
    · have hp1 : (prev == X) = false := beq_false_of_ne hpX
      simp only [hp1, Bool.false_eq_true, if_false]
      have h1 : List.lookup u (setEntry rs u X) = some X := lookup_setEntry_self rs u X
      have := key (setEntry rs u X) (nodup_keys_setEntry rs u X hnd)
        (by rw [h1]; exact fun he => hXY (by injection he))
      simpa [toggleReaction, h1] using this

/-- `modifyFirst` with an id-preserving mutation commutes with locating
the comment by id. -/
theorem find?_modifyFirst (l : List Comment) (cid : String) (f : Comment → Comment)
    (hf : ∀ c, (f c).id = c.id) :
    (modifyFirst l cid f).find? (fun x => x.id == cid) =
      (l.find? (fun x => x.id == cid)).map f := by
  induction l with
  | nil => rfl
  | cons c t ih =>
    by_cases h : c.id = cid
    · have hb : (c.id == cid) = true := by simpa using h
      have hb2 : ((f c).id == cid) = true := by rw [hf c]; exact hb
      simp [modifyFirst, hb, List.find?_cons_of_pos, hb2]
    · have hb : (c.id == cid) = false := beq_false_of_ne h
      simp only [modifyFirst, hb, Bool.false_eq_true, if_false]
      rw [List.find?_cons_of_neg, List.find?_cons_of_neg]
      · exact ih
      · simp [hb]
      · simp [hb]

/-- When the target comment is found, `reactToComment` succeeds and the
written-back sequence still locates the (toggled) comment by its id. -/
theorem reactToComment_found (p : Post) (cid u e : String) (c : Comment)
    (hfind : p.comments.find? (fun x => x.id == cid) = some c) :
    reactToComment p cid u e =
      some { p with comments := modifyFirst p.comments cid (toggleCommentReactions u e) } ∧
    (modifyFirst p.comments cid (toggleCommentReactions u e)).find? (fun x => x.id == cid) =
      some (toggleCommentReactions u e c) := by
  have hsome : (p.comments.find? (fun x => x.id == cid)).isSome = true := by
    rw [hfind]; rfl
  constructor
  · simp [reactToComment, hsome]
  · rw [find?_modifyFirst p.comments cid (toggleCommentReactions u e) (fun c0 => rfl), hfind]
    rfl

/-!  ## Claim theorems  -/

/-- C2: for every post (and every comment) reaction map, user and emoji:
if the user's existing entry equals the chosen emoji `X`, reacting
removes the user's entry entirely (the map no longer contains the
user); reacting with `X` and then with a different emoji `Y` leaves
exactly one entry for that user, namely `Y`.  Stated for `reactToPost`
on the post-level map and for `reactToComment` on the located comment's
map, under the JS-object invariant that keys are unique. -/
theorem C2_reaction_toggle (p : Post) (cid : String) (c : Comment) (u X Y : String)
    (hndp : (p.reactions.map Prod.fst).Nodup)
    (hndc : (c.reactions.map Prod.fst).Nodup)
    (hfind : p.comments.find? (fun x => x.id == cid) = some c)
    (hXY : X ≠ Y) :
    (List.lookup u p.reactions = some X →
      u ∉ (reactToPost p u X).reactions.map Prod.fst) ∧
    entriesFor (reactToPost (reactToPost p u X) u Y).reactions u = [(u, Y)] ∧
    (∃ p1 p2, reactToComment p cid u X = some p1 ∧
      p1.comments.find? (fun x => x.id == cid) = some (toggleCommentReactions u X c) ∧
      (List.lookup u c.reactions = some X →
        u ∉ (toggleCommentReactions u X c).reactions.map Prod.fst) ∧
      reactToComment p1 cid u Y = some p2 ∧
      p2.comments.find? (fun x => x.id == cid) =
        some (toggleCommentReactions u Y (toggleCommentReactions u X c)) ∧
      entriesFor (toggleCommentReactions u Y (toggleCommentReactions u X c)).reactions u =
        [(u, Y)]) := by
  refine ⟨?_, ?_, ?_⟩
  · intro hl
    have hR : (reactToPost p u X).reactions = delEntry p.reactions u := by
      simp [reactToPost, toggleReaction_off p.reactions u X hl]
    rw [hR]
    exact not_mem_keys_delEntry p.reactions u
  · have hR : (reactToPost (reactToPost p u X) u Y).reactions =
        toggleReaction (toggleReaction p.reactions u X) u Y := rfl
    rw [hR]
    exact entriesFor_toggleReaction_twice p.reactions u X Y hndp hXY
  · obtain ⟨h1, h2⟩ := reactToComment_found p cid u X c hfind
    obtain ⟨h3, h4⟩ := reactToComment_found
      { p with comments := modifyFirst p.comments cid (toggleCommentReactions u X) }
      cid u Y (toggleCommentReactions u X c) h2
    have himp : List.lookup u c.reactions = some X →
        u ∉ (toggleCommentReactions u X c).reactions.map Prod.fst := by
      intro hl
      have hR : (toggleCommentReactions u X c).reactions = delEntry c.reactions u := by
        simp [toggleCommentReactions, toggleReaction_off c.reactions u X hl]
      rw [hR]
      exact not_mem_keys_delEntry c.reactions u
    have hfinal : entriesFor (toggleCommentReactions u Y (toggleCommentReactions u X c)).reactions u =
        [(u, Y)] := by
      have hR : (toggleCommentReactions u Y (toggleCommentReactions u X c)).reactions =
          toggleReaction (toggleReaction c.reactions u X) u Y := rfl
      rw [hR]
      exact entriesFor_toggleReaction_twice c.reactions u X Y hndc hXY
    exact ⟨_, _, h1, h2, himp, h3, h4, hfinal⟩

/-- Concrete fixture for the C2 witness: one comment, with the acting
user already reacting `like` on both the post and the comment. -/
def c2Comment : Comment :=
  { id := "c1", author := { id := "b" }, text := some "hi", reactions := [("u", "like")] }

/-- Concrete post fixture for the C2 witness. -/
def c2Post : Post :=
  { comments := [c2Comment], reactions := [("u", "like")], commentCount := 1 }

/-- Witness for C2 at a concrete post, comment and emoji pair. -/
theorem C2_witness :
    entriesFor (reactToPost (reactToPost c2Post "u" "like") "u" "love").reactions "u" =
      [("u", "love")] :=
  (C2_reaction_toggle c2Post "c1" c2Comment "u" "like" "love" (by decide) (by decide)
    (by decide) (by decide)).2.1

/-- C3 counterexample: reacting to a message twice with the same emoji
does NOT remove the user from that emoji's id set — `reactToMessage`
only ever applies `arrayUnion`, so the user is still present. -/
theorem C3_counterexample :
    "u1" ∈ (List.lookup "like"
      (reactToMessage (reactToMessage ([] : MsgReactions) "u1" "like") "u1" "like")).getD [] := by
  decide

/-- C3 (amended): message reactions use set semantics for adding —
reacting with `X` then a different `Y` leaves the user present under
both emoji — but re-reacting with an already-applied emoji is a no-op
on that set (idempotent `arrayUnion`), not a removal: the user remains
present and the set is unchanged. -/
theorem C3_message_reactions (m : MsgReactions) (u X Y : String) (hXY : X ≠ Y) :
    (u ∈ (List.lookup X (reactToMessage (reactToMessage m u X) u Y)).getD [] ∧
     u ∈ (List.lookup Y (reactToMessage (reactToMessage m u X) u Y)).getD []) ∧
    (List.lookup X (reactToMessage (reactToMessage m u X) u X) =
      List.lookup X (reactToMessage m u X) ∧
     u ∈ (List.lookup X (reactToMessage (reactToMessage m u X) u X)).getD []) := by
  have hm1 : List.lookup X (reactToMessage m u X) =
      some (arrayUnionOne ((List.lookup X m).getD []) u) :=
    lookup_setEntry_self m X _
  have humem : u ∈ arrayUnionOne ((List.lookup X m).getD []) u :=
    mem_arrayUnionOne_self _ u
  refine ⟨⟨?_, ?_⟩, ?_, ?_⟩
  · rw [show reactToMessage (reactToMessage m u X) u Y =
      setEntry (reactToMessage m u X) Y _ from rfl]
    rw [lookup_setEntry_ne _ Y X _ hXY, hm1]
    simpa using humem
  · rw [show reactToMessage (reactToMessage m u X) u Y =
      setEntry (reactToMessage m u X) Y _ from rfl]
    rw [lookup_setEntry_self]
    simpa using mem_arrayUnionOne_self ((List.lookup Y (reactToMessage m u X)).getD []) u
  · rw [show reactToMessage (reactToMessage m u X) u X =
      setEntry (reactToMessage m u X) X
        (arrayUnionOne ((List.lookup X (reactToMessage m u X)).getD []) u) from rfl]
    rw [lookup_setEntry_self, hm1]
    simp only [Option.getD_some]
    rw [arrayUnionOne_eq_self _ u humem]
  · rw [show reactToMessage (reactToMessage m u X) u X =
      setEntry (reactToMessage m u X) X
        (arrayUnionOne ((List.lookup X (reactToMessage m u X)).getD []) u) from rfl]
    rw [lookup_setEntry_self]
    simpa using mem_arrayUnionOne_self ((List.lookup X (reactToMessage m u X)).getD []) u

/-- Witness for C3 at a concrete message reaction map. -/
theorem C3_witness :
    "u1" ∈ (List.lookup "sad"
      (reactToMessage (reactToMessage ([] : MsgReactions) "u1" "like") "u1" "sad")).getD [] :=
  (C3_message_reactions [] "u1" "like" "sad" (by decide)).1.2

/-- C10: in `matchesTargeting`, a constraint whose corresponding viewer
profile field is absent trivially passes — location with no declared
city, gender with no gender, age range with no age, interests with no
bio — hence a fully constrained rule matches a profile with none of
these fields set. -/
theorem C10_absent_fields_pass (t : Targeting) (user : UserDoc) :
    (user.currentCity = none → locationOk t user = true) ∧
    (user.gender = none → genderOk t user = true) ∧
    (user.age = none → ageOk t user = true) ∧
    (user.bio = none → interestsOk t user = true) ∧
    (user.currentCity = none → user.gender = none → user.age = none → user.bio = none →
      matchesTargeting { targeting := some t } user = true) := by
  refine ⟨fun h => ?_, fun h => ?_, fun h => ?_, fun h => ?_, fun h1 h2 h3 h4 => ?_⟩
  · simp [locationOk, h, truthyStr]
  · simp [genderOk, h, truthyStr]
  · simp [ageOk, h, truthyNat]
  · simp [interestsOk, h, truthyStr]
  · simp [matchesTargeting, locationOk, genderOk, ageOk, interestsOk, h1, h2, h3, h4,
      truthyStr, truthyNat]

/-- Locating a comment decomposes the sequence around the first id
match, and an in-place mutation of it rewrites exactly that element. -/
theorem modifyFirst_decomp (l : List Comment) (cid : String) (f : Comment → Comment)
    (c : Comment) (hfind : l.find? (fun x => x.id == cid) = some c) :
    ∃ pre post, l = pre ++ c :: post ∧ (∀ x ∈ pre, (x.id == cid) = false) ∧ c.id = cid ∧
      modifyFirst l cid f = pre ++ f c :: post := by
  induction l with
  | nil => simp at hfind
  | cons a t ih =>
    by_cases h : a.id = cid
    · have hb : (a.id == cid) = true := by simpa using h
      rw [List.find?_cons_of_pos _ (by simpa using hb)] at hfind
      have hac : a = c := by injection hfind
      subst hac
      exact ⟨[], t, rfl, by simp, h, by simp [modifyFirst, hb]⟩
    · have hb : (a.id == cid) = false := beq_false_of_ne h
      rw [List.find?_cons_of_neg _ (by simp [hb])] at hfind
      obtain ⟨pre, post, hdec, hpre, hcid, hmod⟩ := ih hfind
      refine ⟨a :: pre, post, by simp [hdec], ?_, hcid, ?_⟩
      · intro x hx
        rcases List.mem_cons.mp hx with hx | hx
        · subst hx; exact hb
        · exact hpre x hx
      · simp only [modifyFirst, hb, Bool.false_eq_true, if_false, hmod]
        rfl

/-- C7: for every post and comment id present in its sequence,
`deleteComment` soft-deletes that comment (sets `isDeleted`, blanks
text/media/reactions) while the element, with its `id` and `author`,
remains at its position in the sequence. -/
theorem C7_deleteComment_soft (p : Post) (cid : String) (c : Comment)
    (hfind : p.comments.find? (fun x => x.id == cid) = some c) :
    ∃ pre post, p.comments = pre ++ c :: post ∧ (∀ x ∈ pre, (x.id == cid) = false) ∧
      (deleteComment p cid).comments = pre ++ blankComment c :: post ∧
      (blankComment c).isDeleted = true ∧ (blankComment c).text = none ∧
      (blankComment c).imageUrl = none ∧ (blankComment c).audioUrl = none ∧
      (blankComment c).reactions = [] ∧ (blankComment c).id = c.id ∧
      (blankComment c).author = c.author := by
  obtain ⟨pre, post, hdec, hpre, hcid, hmod⟩ := modifyFirst_decomp p.comments cid blankComment c hfind
  have hsome : (p.comments.find? (fun x => x.id == cid)).isSome = true := by
    rw [hfind]; rfl
  have hdel : (deleteComment p cid).comments = modifyFirst p.comments cid blankComment := by
    simp [deleteComment, hsome]
  exact ⟨pre, post, hdec, hpre, by rw [hdel, hmod], rfl, rfl, rfl, rfl, rfl, rfl, rfl⟩

/-- Concrete fixture for the C7 and C9 witnesses. -/
def c7Comment : Comment :=
  { id := "c1", author := { id := "b" }, text := some "hello", reactions := [("u2", "like")] }

/-- Concrete post fixture for the C7 and C9 witnesses. -/
def c7Post : Post :=
  { comments := [c7Comment], reactions := [], commentCount := 1 }

/-- Witness for C7 at a concrete one-comment post. -/
theorem C7_witness :
    ∃ pre post, c7Post.comments = pre ++ c7Comment :: post ∧
      (∀ x ∈ pre, (x.id == "c1") = false) ∧
      (deleteComment c7Post "c1").comments = pre ++ blankComment c7Comment :: post ∧
      (blankComment c7Comment).isDeleted = true ∧ (blankComment c7Comment).text = none ∧
      (blankComment c7Comment).imageUrl = none ∧ (blankComment c7Comment).audioUrl = none ∧
      (blankComment c7Comment).reactions = [] ∧ (blankComment c7Comment).id = c7Comment.id ∧
      (blankComment c7Comment).author = c7Comment.author :=
  C7_deleteComment_soft c7Post "c1" c7Comment (by decide)

/-- Soft-deleting the first id match of a non-deleted comment lowers the
non-deleted count by exactly one. -/
theorem countNonDeleted_modifyFirst_blank (l : List Comment) (cid : String) (c : Comment)
    (hfind : l.find? (fun x => x.id == cid) = some c) (hnd : c.isDeleted = false) :
    countNonDeleted (modifyFirst l cid blankComment) + 1 = countNonDeleted l := by
  induction l with
  | nil => simp at hfind
  | cons a t ih =>
    by_cases h : a.id = cid
    · have hb : (a.id == cid) = true := by simpa using h
      rw [List.find?_cons_of_pos _ (by simpa using hb)] at hfind
      have hac : a = c := by injection hfind
      subst hac
      simp [modifyFirst, hb, countNonDeleted, List.filter, blankComment, hnd]
    · have hb : (a.id == cid) = false := beq_false_of_ne h
      rw [List.find?_cons_of_neg _ (by simp [hb])] at hfind
      have := ih hfind
      cases hdel : a.isDeleted <;>
        simp only [modifyFirst, hb, Bool.false_eq_true, if_false, countNonDeleted,
          List.filter, hdel, Bool.not_false, Bool.not_true, List.length_cons] at this ⊢ <;>
        omega

/-- C9: `deleteComment` never touches `commentCount` — the counter keeps
its pre-delete value — while `createComment` increments it by one; so
after soft-deleting a live comment the counter no longer equals the
number of non-deleted comments, even sequentially. -/
theorem C9_commentCount_frame (p : Post) (cid : String) (user : UserDoc) (now : Nat)
    (author : Author) (newId : String) (data : CommentInput) :
    (deleteComment p cid).commentCount = p.commentCount ∧
    (∀ p2 c2, createComment user now author newId p data = CreateCommentResult.ok p2 c2 →
      p2.commentCount = p.commentCount + 1) ∧
    (∀ c, p.comments.find? (fun x => x.id == cid) = some c → c.isDeleted = false →
      p.commentCount = countNonDeleted p.comments →
      (deleteComment p cid).commentCount ≠ countNonDeleted (deleteComment p cid).comments) := by
  refine ⟨?_, ?_, ?_⟩
  · unfold deleteComment
    split <;> rfl
  · intro p2 c2 h
    unfold createComment at h
    split at h
    · exact absurd h (by simp)
    · split at h
      · injection h with h1 h2
        rw [← h1]
      · split at h
        · injection h with h1 h2
          rw [← h1]
        · split at h
          · injection h with h1 h2
            rw [← h1]
          · exact absurd h (by simp)
  · intro c hfind hnd hcount
    have hsome : (p.comments.find? (fun x => x.id == cid)).isSome = true := by
      rw [hfind]; rfl
    have hdelc : (deleteComment p cid).comments = modifyFirst p.comments cid blankComment := by
      simp [deleteComment, hsome]
    have hdeln : (deleteComment p cid).commentCount = p.commentCount := by
      unfold deleteComment
      split <;> rfl
    rw [hdelc, hdeln, hcount, ← countNonDeleted_modifyFirst_blank p.comments cid c hfind hnd]
    omega

/-- Witness for C9 at a concrete one-comment post. -/
theorem C9_witness :
    (deleteComment c7Post "c1").commentCount ≠
      countNonDeleted (deleteComment c7Post "c1").comments :=
  (C9_commentCount_frame c7Post "c1" { id := "u" } 0 { id := "u" } "x" {}).2.2
    c7Comment (by decide) (by decide) (by decide)

/-- C6 counterexample: with BOTH a text and an image payload populated
("exactly one" violated), `createComment` does not fail with the
validation error — the priority chain picks the image branch and the
comment is created. -/
theorem C6_counterexample :
    (createComment { id := "u1" } 0 { id := "u1" } "c9" {}
        { text := some "hi", imageFile := true } ≠ CreateCommentResult.validationError) ∧
    (∃ p2 c2, createComment { id := "u1" } 0 { id := "u1" } "c9" {}
        { text := some "hi", imageFile := true } = CreateCommentResult.ok p2 c2 ∧
      c2.type = CommentType.image ∧ truthyStr (some "hi") = true) :=
  ⟨by decide, ⟨_, _, rfl, rfl, rfl⟩⟩

/-- C6 (amended): `createComment` fails with `CommentingSuspended` when
the acting user's suspension timestamp is strictly in the future;
otherwise the content variants are tried in priority order —
audio-with-duration, then image, then text — a comment being appended
(and `commentCount` incremented) exactly when at least one variant is
populated (stated in both directions: any populated variant yields a
created, appended comment, and `ValidationError` is raised exactly when
none is).  ("Exactly one" is not required: extra populated variants are
ignored by priority.) -/
theorem C6_createComment_checks (user : UserDoc) (now : Nat) (author : Author)
    (newId : String) (p : Post) (data : CommentInput) :
    ((∃ t, user.commentingSuspendedUntil = some t ∧ now < t) →
      createComment user now author newId p data = CreateCommentResult.suspended) ∧
    ((∀ t, user.commentingSuspendedUntil = some t → t ≤ now) →
      (data.audioBlob && truthyNat data.duration) = false → data.imageFile = false →
      truthyStr data.text = false →
      createComment user now author newId p data = CreateCommentResult.validationError) ∧
    ((∀ t, user.commentingSuspendedUntil = some t → t ≤ now) →
      ((data.audioBlob && truthyNat data.duration) || data.imageFile || truthyStr data.text) = true →
      ∃ p2 c2, createComment user now author newId p data = CreateCommentResult.ok p2 c2 ∧
        p2.comments = p.comments ++ [c2] ∧ p2.commentCount = p.commentCount + 1) ∧
    (∀ p2 c2, createComment user now author newId p data = CreateCommentResult.ok p2 c2 →
      p2.comments = p.comments ++ [c2] ∧ p2.commentCount = p.commentCount + 1 ∧
      c2.id = newId ∧ c2.author = author ∧
      ((data.audioBlob && truthyNat data.duration) = true → c2.type = CommentType.audio) ∧
      ((data.audioBlob && truthyNat data.duration) = false → data.imageFile = true →
        c2.type = CommentType.image) ∧
      ((data.audioBlob && truthyNat data.duration) = false → data.imageFile = false →
        c2.type = CommentType.text ∧ c2.text = data.text)) := by
  refine ⟨?_, ?_, ?_, ?_⟩
  · rintro ⟨t, ht, hlt⟩
    simp [createComment, ht, hlt]
  · intro hns hA hI hT
    have hcond : (match user.commentingSuspendedUntil with
        | some t => decide (now < t) | none => false) = false := by
      cases hsusp : user.commentingSuspendedUntil with
      | none => rfl
      | some t =>
        have := hns t hsusp
        simpa using this
    simp [createComment, hcond, hA, hI, hT]
  · intro hns hpop
    have hS : (match user.commentingSuspendedUntil with
        | some t => decide (now < t) | none => false) = false := by
      cases hsusp : user.commentingSuspendedUntil with
      | none => rfl
      | some t =>
        have := hns t hsusp
        simpa using this
    by_cases hA : (data.audioBlob && truthyNat data.duration) = true
    · rw [createComment, if_neg (by rw [hS]; exact Bool.false_ne_true), if_pos hA]
      exact ⟨_, _, rfl, rfl, rfl⟩
    · rw [Bool.not_eq_true] at hA
      by_cases hI : data.imageFile = true
      · rw [createComment, if_neg (by rw [hS]; exact Bool.false_ne_true),
          if_neg (by rw [hA]; exact Bool.false_ne_true), if_pos hI]
        exact ⟨_, _, rfl, rfl, rfl⟩
      · rw [Bool.not_eq_true] at hI
        by_cases hT : truthyStr data.text = true
        · rw [createComment, if_neg (by rw [hS]; exact Bool.false_ne_true),
            if_neg (by rw [hA]; exact Bool.false_ne_true),
            if_neg (by rw [hI]; exact Bool.false_ne_true), if_pos hT]
          exact ⟨_, _, rfl, rfl, rfl⟩
        · rw [Bool.not_eq_true] at hT
          rw [hA, hI, hT] at hpop
          cases hpop
  · intro p2 c2 h
    by_cases hS : (match user.commentingSuspendedUntil with
        | some t => decide (now < t) | none => false) = true
    · rw [createComment, if_pos hS] at h
      cases h
    · rw [Bool.not_eq_true] at hS
      by_cases hA : (data.audioBlob && truthyNat data.duration) = true
      · rw [createComment, if_neg (by rw [hS]; exact Bool.false_ne_true), if_pos hA] at h
        injection h with h1 h2
        subst h1; subst h2
        refine ⟨rfl, rfl, rfl, rfl, fun _ => rfl, fun hA2 _ => ?_, fun hA2 _ => ?_⟩
        · rw [hA] at hA2; cases hA2
        · rw [hA] at hA2; cases hA2
      · rw [Bool.not_eq_true] at hA
        by_cases hI : data.imageFile = true
        · rw [createComment, if_neg (by rw [hS]; exact Bool.false_ne_true),
            if_neg (by rw [hA]; exact Bool.false_ne_true), if_pos hI] at h
          injection h with h1 h2
          subst h1; subst h2
          refine ⟨rfl, rfl, rfl, rfl, fun hA2 => ?_, fun _ _ => rfl, fun _ hI2 => ?_⟩
          · rw [hA2] at hA; cases hA
          · rw [hI] at hI2; cases hI2
        · rw [Bool.not_eq_true] at hI
          by_cases hT : truthyStr data.text = true
          · rw [createComment, if_neg (by rw [hS]; exact Bool.false_ne_true),
              if_neg (by rw [hA]; exact Bool.false_ne_true),
              if_neg (by rw [hI]; exact Bool.false_ne_true), if_pos hT] at h
            injection h with h1 h2
            subst h1; subst h2
            refine ⟨rfl, rfl, rfl, rfl, fun hA2 => ?_, fun _ hI2 => ?_, fun _ _ => ⟨rfl, rfl⟩⟩
            · rw [hA2] at hA; cases hA
            · rw [hI2] at hI; cases hI
          · rw [Bool.not_eq_true] at hT
            rw [createComment, if_neg (by rw [hS]; exact Bool.false_ne_true),
              if_neg (by rw [hA]; exact Bool.false_ne_true),
              if_neg (by rw [hI]; exact Bool.false_ne_true),
              if_neg (by rw [hT]; exact Bool.false_ne_true)] at h
            cases h

/-- Witness for C6 (amended): an unsuspended user with no content at
all gets the validation error. -/
theorem C6_witness :
    createComment { id := "u2" } 5 { id := "u2" } "cw" {} {} =
      CreateCommentResult.validationError :=
  (C6_createComment_checks { id := "u2" } 5 { id := "u2" } "cw" {} {}).2.1
    (fun t ht => by simp at ht) rfl rfl rfl

theorem updateUser_users_self (db : FriendDB) (uid : String) (f : UserDoc → UserDoc) :
    (updateUser db uid f).users uid = (db.users uid).map f := by
  simp [updateUser]

theorem updateUser_users_ne (db : FriendDB) (uid uid2 : String) (f : UserDoc → UserDoc)
    (h : uid2 ≠ uid) : (updateUser db uid f).users uid2 = db.users uid2 := by
  simp only [updateUser, beq_false_of_ne h, Bool.false_eq_true, if_false]

/-- When both users exist, no request record exists in either ordering
and the receiver's privacy gate does not fire, `addFriend` appends a
fresh `pending` request document and reports success. -/
theorem addFriend_creates (db : FriendDB) (A B : String) (ua ub : UserDoc)
    (hua : db.users A = some ua) (hub : db.users B = some ub)
    (hr1 : getRequest db A B = none) (hr2 : getRequest db B A = none)
    (hpriv : (ub.friendRequestPrivacy == "friends_of_friends" &&
      (ua.friendIds.filter (fun fid => ub.friendIds.contains fid)).isEmpty &&
      (B != A)) = false) :
    addFriend db A B =
      ({ db with friendRequests := db.friendRequests ++
        [{ fromId := A, toId := B, status := "pending" }] }, AddFriendResult.success) := by
  simp only [addFriend, hua, hub, hr1, hr2, Option.isSome_none, Bool.or_self,
    Bool.false_eq_true, if_false, hpriv]

/-- After `addFriend` creates the `pending` request, the keyed point
read finds exactly that document. -/
theorem getRequest_after_create (db : FriendDB) (A B : String)
    (hr1 : getRequest db A B = none) :
    getRequest { db with friendRequests := db.friendRequests ++
        [{ fromId := A, toId := B, status := "pending" }] } A B =
      some { fromId := A, toId := B, status := "pending" } := by
  unfold getRequest at hr1 ⊢
  rw [List.find?_append, hr1, Option.none_or]
  simp

/-- When both users exist and a request record already exists in either
ordering, `addFriend` is a success no-op. -/
theorem addFriend_existing (db : FriendDB) (A B : String) (ua ub : UserDoc)
    (hua : db.users A = some ua) (hub : db.users B = some ub)
    (hex : (getRequest db A B).isSome = true ∨ (getRequest db B A).isSome = true) :
    addFriend db A B = (db, AddFriendResult.success) := by
  rcases hex with h | h
  · simp only [addFriend, hua, hub, h, Bool.true_or, if_true]
  · simp only [addFriend, hua, hub, h, Bool.or_true, if_true]

theorem users_withRequests (d : FriendDB) (v : List FriendRequestDoc) :
    ({ d with friendRequests := v } : FriendDB).users = d.users := rfl

theorem requests_withRequests (d : FriendDB) (v : List FriendRequestDoc) :
    ({ d with friendRequests := v } : FriendDB).friendRequests = v := rfl

theorem updateUser_requests (db : FriendDB) (uid : String) (f : UserDoc → UserDoc) :
    (updateUser db uid f).friendRequests = db.friendRequests := rfl

theorem isEmpty_append_singleton {α : Type} (l : List α) (x : α) :
    (l ++ [x]).isEmpty = false := by
  cases l <;> rfl

/-- Unfolding of the reconcile step when the user id is nonempty and at
least one accepted outgoing request exists. -/
theorem syncAcceptedFriends_spec (db : FriendDB) (A : String) (hA : (A == "") = false)
    (hne : ((db.friendRequests.filter (fun r => r.fromId == A && r.status == "accepted")).map (fun r => r.toId)).isEmpty = false) :
    syncAcceptedFriends db A =
      updateUser { db with friendRequests := db.friendRequests.filter (fun r => !(r.fromId == A && r.status == "accepted")) } A (fun u => { u with friendIds := arrayUnionList u.friendIds ((db.friendRequests.filter (fun r => r.fromId == A && r.status == "accepted")).map (fun r => r.toId)), sentFriendRequests := arrayRemoveList u.sentFriendRequests ((db.friendRequests.filter (fun r => r.fromId == A && r.status == "accepted")).map (fun r => r.toId)) }) := by
  simp only [syncAcceptedFriends, hA, Bool.false_eq_true, if_false, hne]

/-- C1: for users A and B, `sendRequest(A,B)` then `accept(B,A)` then
`reconcile(A)` (the session-start sync of accepted outgoing requests)
leaves B in A's `friendIds`, A in B's `friendIds`, and no FriendRequest
record for the pair in either ordering — given that both users exist,
no request record pre-exists for the pair, A's id is nonempty and the
receiver's privacy gate does not fire. -/
theorem C1_handshake_converges (db : FriendDB) (A B : String) (ua ub : UserDoc)
    (hAB : A ≠ B) (hA0 : A ≠ "")
    (hua : db.users A = some ua) (hub : db.users B = some ub)
    (hr1 : getRequest db A B = none) (hr2 : getRequest db B A = none)
    (hpriv : (ub.friendRequestPrivacy == "friends_of_friends" &&
      (ua.friendIds.filter (fun fid => ub.friendIds.contains fid)).isEmpty &&
      (B != A)) = false) :
    ∃ ua2 ub2, (handshake db A B).users A = some ua2 ∧ (handshake db A B).users B = some ub2 ∧
      B ∈ ua2.friendIds ∧ A ∈ ub2.friendIds ∧
      getRequest (handshake db A B) A B = none ∧
      getRequest (handshake db A B) B A = none := by
  have hsend := addFriend_creates db A B ua ub hua hub hr1 hr2 hpriv
  have hfst : (addFriend db A B).fst =
      { db with friendRequests := db.friendRequests ++
        [{ fromId := A, toId := B, status := "pending" }] } := by
    rw [hsend]
  have hget1 : getRequest (addFriend db A B).fst A B =
      some { fromId := A, toId := B, status := "pending" } := by
    rw [hfst]
    exact getRequest_after_create db A B hr1
  have haccept : acceptFriendRequest (addFriend db A B).fst B A =
      updateUser { (addFriend db A B).fst with friendRequests := (addFriend db A B).fst.friendRequests.map (fun r => if r.fromId == A && r.toId == B then { r with status := "accepted" } else r) } B (fun u => { u with friendIds := arrayUnionOne u.friendIds A }) := by
    simp only [acceptFriendRequest, hget1, Option.isSome_some, if_true]
  have hr1f : List.find? (fun r => r.fromId == A && r.toId == B) db.friendRequests = none := hr1
  have hmapg : (addFriend db A B).fst.friendRequests.map (fun r => if r.fromId == A && r.toId == B then { r with status := "accepted" } else r) =
      db.friendRequests ++ [{ fromId := A, toId := B, status := "accepted" }] := by
    rw [hfst, requests_withRequests, List.map_append]
    congr 1
    · have hcong : ∀ r ∈ db.friendRequests,
          (if r.fromId == A && r.toId == B then { r with status := "accepted" } else r) = id r := by
        intro r hr
        have hnp := List.find?_eq_none.mp hr1f r hr
        simp only [id]
        rw [if_neg hnp]
      rw [List.map_congr_left hcong, List.map_id]
    · simp
  have hAuA : (acceptFriendRequest (addFriend db A B).fst B A).users A = some ua := by
    rw [haccept, updateUser_users_ne _ _ _ _ hAB, users_withRequests, hfst, users_withRequests]
    exact hua
  have hAuB : (acceptFriendRequest (addFriend db A B).fst B A).users B =
      some { ub with friendIds := arrayUnionOne ub.friendIds A } := by
    rw [haccept, updateUser_users_self, users_withRequests, hfst, users_withRequests, hub]
    rfl
  have hAreq : (acceptFriendRequest (addFriend db A B).fst B A).friendRequests =
      db.friendRequests ++ [{ fromId := A, toId := B, status := "accepted" }] := by
    rw [haccept, updateUser_requests, requests_withRequests]
    exact hmapg
  have hFTA : ((acceptFriendRequest (addFriend db A B).fst B A).friendRequests.filter (fun r => r.fromId == A && r.status == "accepted")).map (fun r => r.toId) =
      ((db.friendRequests.filter (fun r => r.fromId == A && r.status == "accepted")).map (fun r => r.toId)) ++ [B] := by
    rw [hAreq, List.filter_append, List.map_append]
    congr 1
    simp
  have hne : (((acceptFriendRequest (addFriend db A B).fst B A).friendRequests.filter (fun r => r.fromId == A && r.status == "accepted")).map (fun r => r.toId)).isEmpty = false := by
    rw [hFTA]
    exact isEmpty_append_singleton _ B
  have hsync := syncAcceptedFriends_spec (acceptFriendRequest (addFriend db A B).fst B A) A
    (beq_false_of_ne hA0) hne
  have hstep : handshake db A B =
      syncAcceptedFriends (acceptFriendRequest (addFriend db A B).fst B A) A := rfl
  have hBmem : B ∈ ((acceptFriendRequest (addFriend db A B).fst B A).friendRequests.filter (fun r => r.fromId == A && r.status == "accepted")).map (fun r => r.toId) := by
    rw [hFTA]
    exact List.mem_append_right _ (List.mem_singleton.mpr rfl)
  have hfinalA : (handshake db A B).users A =
      some { ua with friendIds := arrayUnionList ua.friendIds (((acceptFriendRequest (addFriend db A B).fst B A).friendRequests.filter (fun r => r.fromId == A && r.status == "accepted")).map (fun r => r.toId)), sentFriendRequests := arrayRemoveList ua.sentFriendRequests (((acceptFriendRequest (addFriend db A B).fst B A).friendRequests.filter (fun r => r.fromId == A && r.status == "accepted")).map (fun r => r.toId)) } := by
    rw [hstep, hsync, updateUser_users_self, users_withRequests, hAuA]
    rfl
  have hfinalB : (handshake db A B).users B =
      some { ub with friendIds := arrayUnionOne ub.friendIds A } := by
    rw [hstep, hsync, updateUser_users_ne _ _ _ _ (Ne.symm hAB), users_withRequests, hAuB]
  have hfinalReq : (handshake db A B).friendRequests =
      (db.friendRequests ++ [({ fromId := A, toId := B, status := "accepted" } : FriendRequestDoc)]).filter (fun r => !(r.fromId == A && r.status == "accepted")) := by
    rw [hstep, hsync, updateUser_requests, requests_withRequests, hAreq]
  refine ⟨_, _, hfinalA, hfinalB, ?_, ?_, ?_, ?_⟩
  · exact mem_arrayUnionList_of_mem_adds _ _ _ hBmem
  · exact mem_arrayUnionOne_self _ A
  · unfold getRequest
    rw [hfinalReq]
    rw [List.find?_eq_none]
    intro r hrmem
    rcases List.mem_filter.mp hrmem with ⟨hrin, hrq⟩
    rcases List.mem_append.mp hrin with hin | hin
    · exact List.find?_eq_none.mp hr1f r hin
    · have : r = { fromId := A, toId := B, status := "accepted" } := List.mem_singleton.mp hin
      subst this
      simp at hrq
  · unfold getRequest
    rw [hfinalReq]
    rw [List.find?_eq_none]
    intro r hrmem
    rcases List.mem_filter.mp hrmem with ⟨hrin, hrq⟩
    rcases List.mem_append.mp hrin with hin | hin
    · have hr2f : List.find? (fun r => r.fromId == B && r.toId == A) db.friendRequests = none := hr2
      exact List.find?_eq_none.mp hr2f r hin
    · have : r = { fromId := A, toId := B, status := "accepted" } := List.mem_singleton.mp hin
      subst this
      simp [beq_false_of_ne hAB]

/-- Concrete two-user store for the C1 and C5 witnesses. -/
def c1DB : FriendDB :=
  { users := fun x => if x == "alice" then some { id := "alice" } else if x == "bob" then some { id := "bob" } else none,
    friendRequests := [] }

/-- Witness for C1 at a concrete two-user store. -/
theorem C1_witness :
    ∃ ua2 ub2, (handshake c1DB "alice" "bob").users "alice" = some ua2 ∧
      (handshake c1DB "alice" "bob").users "bob" = some ub2 ∧
      "bob" ∈ ua2.friendIds ∧ "alice" ∈ ub2.friendIds ∧
      getRequest (handshake c1DB "alice" "bob") "alice" "bob" = none ∧
      getRequest (handshake c1DB "alice" "bob") "bob" "alice" = none :=
  C1_handshake_converges c1DB "alice" "bob" { id := "alice" } { id := "bob" }
    (by decide) (by decide) rfl rfl rfl rfl (by decide)

/-- Concrete store for the C4 counterexample and witness: alice and bob
are already symmetric friends and no request record exists. -/
def c4DB : FriendDB :=
  { users := fun x => if x == "alice" then some { id := "alice", friendIds := ["bob"] } else if x == "bob" then some { id := "bob", friendIds := ["alice"] } else none,
    friendRequests := [] }

/-- C4 counterexample: for two users that are already symmetric friends
and have no leftover request record, `addFriend` does NOT fail with an
AlreadyFriends error — it returns success and creates a brand-new
`pending` FriendRequest record. -/
theorem C4_counterexample :
    ((c4DB.users "alice").map (fun u => u.friendIds.contains "bob") = some true) ∧
    ((c4DB.users "bob").map (fun u => u.friendIds.contains "alice") = some true) ∧
    c4DB.friendRequests = [] ∧
    (addFriend c4DB "alice" "bob").snd = AddFriendResult.success ∧
    getRequest (addFriend c4DB "alice" "bob").fst "alice" "bob" =
      some { fromId := "alice", toId := "bob", status := "pending" } := by
  decide

/-- C4 (amended): `addFriend` performs no friendship check at all.  For
users A and B that are already symmetric friends, the call fails with
no AlreadyFriends error: if no request record exists in either ordering
(and the privacy gate does not fire) it creates a new `pending` request
record and returns success; only a leftover request record in either
ordering makes it return success without creating one. -/
theorem C4_already_friends_success (db : FriendDB) (A B : String) (ua ub : UserDoc)
    (hua : db.users A = some ua) (hub : db.users B = some ub)
    (_hfr1 : B ∈ ua.friendIds) (_hfr2 : A ∈ ub.friendIds)
    (hr1 : getRequest db A B = none) (hr2 : getRequest db B A = none)
    (hpriv : (ub.friendRequestPrivacy == "friends_of_friends" &&
      (ua.friendIds.filter (fun fid => ub.friendIds.contains fid)).isEmpty &&
      (B != A)) = false) :
    addFriend db A B =
      ({ db with friendRequests := db.friendRequests ++
        [{ fromId := A, toId := B, status := "pending" }] }, AddFriendResult.success) :=
  addFriend_creates db A B ua ub hua hub hr1 hr2 hpriv

/-- Witness for C4 (amended) at the concrete already-friends store. -/
theorem C4_witness :
    addFriend c4DB "alice" "bob" =
      ({ c4DB with friendRequests := c4DB.friendRequests ++
        [{ fromId := "alice", toId := "bob", status := "pending" }] }, AddFriendResult.success) :=
  C4_already_friends_success c4DB "alice" "bob" { id := "alice", friendIds := ["bob"] }
    { id := "bob", friendIds := ["alice"] } rfl rfl (by decide) (by decide) rfl rfl (by decide)

/-- C5: sending the same friend request twice is idempotent — the first
call succeeds and creates the record, the second call returns success
while changing nothing, and exactly one FriendRequest record exists for
the unordered pair (both orderings are probed before creation) after
either call. -/
theorem C5_sendRequest_idempotent (db : FriendDB) (A B : String) (ua ub : UserDoc)
    (hua : db.users A = some ua) (hub : db.users B = some ub)
    (hr1 : getRequest db A B = none) (hr2 : getRequest db B A = none)
    (hpriv : (ub.friendRequestPrivacy == "friends_of_friends" &&
      (ua.friendIds.filter (fun fid => ub.friendIds.contains fid)).isEmpty &&
      (B != A)) = false) :
    (addFriend db A B).snd = AddFriendResult.success ∧
    addFriend (addFriend db A B).fst A B = ((addFriend db A B).fst, AddFriendResult.success) ∧
    (addFriend db A B).fst.friendRequests.countP (fun r => (r.fromId == A && r.toId == B) || (r.fromId == B && r.toId == A)) = 1 ∧
    (addFriend (addFriend db A B).fst A B).fst.friendRequests.countP (fun r => (r.fromId == A && r.toId == B) || (r.fromId == B && r.toId == A)) = 1 := by
  have hsend := addFriend_creates db A B ua ub hua hub hr1 hr2 hpriv
  have hfst : (addFriend db A B).fst =
      { db with friendRequests := db.friendRequests ++
        [{ fromId := A, toId := B, status := "pending" }] } := by
    rw [hsend]
  have hget1 : getRequest (addFriend db A B).fst A B =
      some { fromId := A, toId := B, status := "pending" } := by
    rw [hfst]
    exact getRequest_after_create db A B hr1
  have hua2 : (addFriend db A B).fst.users A = some ua := by
    rw [hfst, users_withRequests]
    exact hua
  have hub2 : (addFriend db A B).fst.users B = some ub := by
    rw [hfst, users_withRequests]
    exact hub
  have hsecond : addFriend (addFriend db A B).fst A B =
      ((addFriend db A B).fst, AddFriendResult.success) :=
    addFriend_existing (addFriend db A B).fst A B ua ub hua2 hub2 (Or.inl (by rw [hget1]; rfl))
  have hcount : (addFriend db A B).fst.friendRequests.countP (fun r => (r.fromId == A && r.toId == B) || (r.fromId == B && r.toId == A)) = 1 := by
    rw [hfst, requests_withRequests, List.countP_append]
    have hr1f : List.find? (fun r => r.fromId == A && r.toId == B) db.friendRequests = none := hr1
    have hr2f : List.find? (fun r => r.fromId == B && r.toId == A) db.friendRequests = none := hr2
    have h0 : db.friendRequests.countP (fun r => (r.fromId == A && r.toId == B) || (r.fromId == B && r.toId == A)) = 0 := by
      rw [List.countP_eq_zero]
      intro r hr
      have h1 := List.find?_eq_none.mp hr1f r hr
      have h2 := List.find?_eq_none.mp hr2f r hr
      simp only [Bool.or_eq_true]
      rintro (h | h)
      · exact h1 h
      · exact h2 h
    rw [h0]
    simp
  refine ⟨by rw [hsend], hsecond, hcount, ?_⟩
  rw [hsecond]
  exact hcount

/-- Witness for C5 at the concrete two-user store. -/
theorem C5_witness :
    (addFriend c1DB "alice" "bob").snd = AddFriendResult.success ∧
    addFriend (addFriend c1DB "alice" "bob").fst "alice" "bob" = ((addFriend c1DB "alice" "bob").fst, AddFriendResult.success) ∧
    (addFriend c1DB "alice" "bob").fst.friendRequests.countP (fun r => (r.fromId == "alice" && r.toId == "bob") || (r.fromId == "bob" && r.toId == "alice")) = 1 ∧
    (addFriend (addFriend c1DB "alice" "bob").fst "alice" "bob").fst.friendRequests.countP (fun r => (r.fromId == "alice" && r.toId == "bob") || (r.fromId == "bob" && r.toId == "alice")) = 1 :=
  C5_sendRequest_idempotent c1DB "alice" "bob" { id := "alice" } { id := "bob" }
    rfl rfl rfl rfl (by decide)

/-- The merged-snapshot invariant of the fan-out composer: at most one
entry per key and every key among the current friend ids. -/
def composerInv (st : ComposerState) : Prop :=
  ((st.friendsData.map Prod.fst).Nodup) ∧
  ∀ k ∈ st.friendsData.map Prod.fst, k ∈ st.currentIds

theorem mem_keys_delEntry {α : Type} (l : List (String × α)) (k x : String)
    (h : x ∈ (delEntry l k).map Prod.fst) : x ∈ l.map Prod.fst :=
  ((List.filter_sublist l).map Prod.fst).mem h

theorem composerInv_step (st : ComposerState) (e : ComposerEvent)
    (hinv : composerInv st) : composerInv (listenToFriendsStep st e) := by
  cases e with
  | parentUpdate ids =>
    constructor
    · simp [listenToFriendsStep]
    · intro k hk
      simp [listenToFriendsStep] at hk
  | childUpdate fid doc =>
    by_cases h : st.currentIds.contains fid
    · simp only [listenToFriendsStep, h, if_true]
      refine ⟨nodup_keys_setEntry _ fid doc hinv.1, ?_⟩
      intro k hk
      rcases mem_keys_setEntry st.friendsData fid k doc hk with h1 | h1
      · subst h1
        exact List.mem_of_elem_eq_true h
      · exact hinv.2 k h1
    · simpa only [listenToFriendsStep, h, Bool.false_eq_true, if_false] using hinv
  | childDelete fid =>
    by_cases h : st.currentIds.contains fid
    · simp only [listenToFriendsStep, h, if_true]
      refine ⟨nodup_keys_delEntry _ fid hinv.1, ?_⟩
      intro k hk
      exact hinv.2 k (mem_keys_delEntry st.friendsData fid k hk)
    · simpa only [listenToFriendsStep, h, Bool.false_eq_true, if_false] using hinv

theorem composerInv_foldl (events : List ComposerEvent) (st : ComposerState)
    (hinv : composerInv st) : composerInv (events.foldl listenToFriendsStep st) := by
  induction events generalizing st with
  | nil => simpa using hinv
  | cons e t ih =>
    simpa [List.foldl_cons] using ih (listenToFriendsStep st e) (composerInv_step st e hinv)

theorem isCancel_setupListenersActions (o n : List String) (i : Nat)
    (hi : i < (setupListenersActions o n).length) :
    ((setupListenersActions o n).get ⟨i, hi⟩).isCancel = true ↔ i < o.length := by
  constructor
  · intro h
    by_contra hno
    push_neg at hno
    have hno2 : (o.map SubAction.cancel).length ≤ i := by simpa using hno
    rw [List.get_eq_getElem] at h
    unfold setupListenersActions at h
    rw [List.getElem_append_right hno2] at h
    simp [SubAction.isCancel] at h
  · intro h
    have h2 : i < (o.map SubAction.cancel).length := by simpa using h
    rw [List.get_eq_getElem]
    unfold setupListenersActions
    rw [List.getElem_append_left h2]
    simp [SubAction.isCancel]

/-- C8: for the fan-out friend subscription — (a) every merged snapshot
holds at most one entry per id and no entry for an id outside the
current friend set, over any event sequence; (b) in the
teardown/re-setup trace every cancellation of a previously created
child precedes every creation, and every previously subscribed id is
cancelled; (c) a child-deleted event removes that id's entry from the
merge before the snapshot is re-emitted. -/
theorem C8_composer_teardown_and_merge :
    (∀ events : List ComposerEvent,
      ((listenToFriendsRun events).friendsData.map Prod.fst).Nodup ∧
      ∀ k ∈ (listenToFriendsRun events).friendsData.map Prod.fst,
        k ∈ (listenToFriendsRun events).currentIds) ∧
    (∀ o n : List String, ∀ i j : Nat,
      ∀ hi : i < (setupListenersActions o n).length,
      ∀ hj : j < (setupListenersActions o n).length,
      ((setupListenersActions o n).get ⟨i, hi⟩).isCancel = true →
      ((setupListenersActions o n).get ⟨j, hj⟩).isCancel = false → i < j) ∧
    (∀ o n : List String, ∀ x ∈ o, SubAction.cancel x ∈ setupListenersActions o n) ∧
    (∀ st : ComposerState, ∀ fid, fid ∈ st.currentIds →
      List.lookup fid (listenToFriendsStep st (ComposerEvent.childDelete fid)).friendsData = none) := by
  refine ⟨?_, ?_, ?_, ?_⟩
  · intro events
    exact composerInv_foldl events { currentIds := [], friendsData := [] }
      ⟨List.nodup_nil, by intro k hk; simp at hk⟩
  · intro o n i j hi hj hci hcj
    have h1 : i < o.length := (isCancel_setupListenersActions o n i hi).mp hci
    have h2 : ¬ j < o.length := by
      intro hlt
      rw [(isCancel_setupListenersActions o n j hj).mpr hlt] at hcj
      cases hcj
    omega
  · intro o n x hx
    exact List.mem_append_left _ (List.mem_map_of_mem SubAction.cancel hx)
  · intro st fid h
    have hc : st.currentIds.contains fid = true := List.elem_iff.mpr h
    simp only [listenToFriendsStep, hc, if_true]
    exact lookup_delEntry_self st.friendsData fid

/-- Witness for C8: deleting a live child entry removes it from the
concrete merged snapshot. -/
theorem C8_witness :
    List.lookup "f1" (listenToFriendsStep { currentIds := ["f1"], friendsData := [("f1", { id := "f1" })] } (ComposerEvent.childDelete "f1")).friendsData = none :=
  C8_composer_teardown_and_merge.2.2.2 { currentIds := ["f1"], friendsData := [("f1", { id := "f1" })] } "f1" (by decide)

/-- Concrete fully constrained rule for the C10 witness. -/
def c10Rule : Targeting :=
  { location := some "Dhaka", gender := some "Male", ageRange := some "18-25", interests := some ["cricket"] }

/-- Witness for C10: a fully constrained rule against a profile with no
city, gender, age or bio. -/
theorem C10_witness :
    matchesTargeting { targeting := some c10Rule } { id := "viewer" } = true :=
  (C10_absent_fields_pass c10Rule { id := "viewer" }).2.2.2.2 rfl rfl rfl rfl

end SocialApp
